import Mathlib

/-!
Shallow embedding of the Paysera payment-gateway codec
(`src/modules/paysera/*.ts` and the `PayseraClient` in the repository),
with theorems checking the natural-language specification against it.

Modelling conventions:
* JS strings are modelled as Lean `String` (lists of Unicode scalar values);
  byte buffers as `List Nat` with every element `< 256`.
* Node's `Buffer.from(str, "utf-8")` / `.toString("utf-8")` are modelled by an
  explicit UTF-8 encoder and a lenient decoder (malformed sequences produce the
  replacement character, as Node never throws there).
* `decodeURIComponent` throws `URIError` on malformed input, so it is modelled
  as an `Option`-returning function backed by a strict UTF-8 decoder.
* The MD5 digest from Node's `crypto` is external to the repository; it is
  modelled as an abstract parameter `md5Hex : String → String`, so every
  theorem about signatures holds for the real digest in particular.
* Thrown exceptions are modelled with `Except` over a closed error type whose
  constructors mirror the classes in `paysera-errors.ts`.
-/

namespace Paysera

/-- The standard base64 alphabet, index 0..63, as used by Node's `Buffer`. -/
def base64Chars : List Char :=
  ['A', 'B', 'C', 'D', 'E', 'F', 'G', 'H', 'I', 'J', 'K', 'L', 'M',
   'N', 'O', 'P', 'Q', 'R', 'S', 'T', 'U', 'V', 'W', 'X', 'Y', 'Z',
   'a', 'b', 'c', 'd', 'e', 'f', 'g', 'h', 'i', 'j', 'k', 'l', 'm',
   'n', 'o', 'p', 'q', 'r', 's', 't', 'u', 'v', 'w', 'x', 'y', 'z',
   '0', '1', '2', '3', '4', '5', '6', '7', '8', '9', '+', '/']

/-- Character for a sextet value (0..63). -/
def base64Char (n : Nat) : Char := base64Chars.getD n 'A'

/-- Sextet value of a base64 character (length of the alphabet if absent). -/
def base64Index (c : Char) : Nat := base64Chars.indexOf c

/-- Standard base64 encoding of a byte sequence, with `=` padding
(the behaviour of `Buffer.toString("base64")`). -/
def encodeB64 : List Nat → List Char
  | [] => []
  | [b0] =>
      [base64Char (b0 / 4), base64Char (b0 % 4 * 16), '=', '=']
  | [b0, b1] =>
      [base64Char (b0 / 4), base64Char (b0 % 4 * 16 + b1 / 16),
       base64Char (b1 % 16 * 4), '=']
  | b0 :: b1 :: b2 :: rest =>
      base64Char (b0 / 4) :: base64Char (b0 % 4 * 16 + b1 / 16) ::
      base64Char (b1 % 16 * 4 + b2 / 64) :: base64Char (b2 % 64) ::
      encodeB64 rest

/-- Standard base64 decoding (the behaviour of `Buffer.from(s, "base64")` on
well-formed input; Node silently ignores trailing garbage, modelled by the
catch-all returning `[]`). -/
def decodeB64 : List Char → List Nat
  | c0 :: c1 :: c2 :: c3 :: rest =>
      if c2 = '=' then
        [base64Index c0 * 4 + base64Index c1 / 16]
      else if c3 = '=' then
        [base64Index c0 * 4 + base64Index c1 / 16,
         base64Index c1 % 16 * 16 + base64Index c2 / 4]
      else
        (base64Index c0 * 4 + base64Index c1 / 16) ::
        (base64Index c1 % 16 * 16 + base64Index c2 / 4) ::
        (base64Index c2 % 4 * 64 + base64Index c3) ::
        decodeB64 rest
  | _ => []

/-- The URL-safe substitution `/ → _`, `+ → -` of `toUrlSafeBase64`
(a global single-character `String.replace`). -/
def toSafeChar (c : Char) : Char :=
  if c = '/' then '_' else if c = '+' then '-' else c

/-- The reverse substitution `_ → /`, `- → +` of `fromUrlSafeBase64`. -/
def fromSafeChar (c : Char) : Char :=
  if c = '_' then '/' else if c = '-' then '+' else c

lemma base64Index_base64Char : ∀ n < 64, base64Index (base64Char n) = n := by decide

lemma base64Char_ne_eq : ∀ n < 64, base64Char n ≠ '=' := by decide

lemma fromSafe_toSafe_base64Char :
    ∀ n < 64, fromSafeChar (toSafeChar (base64Char n)) = base64Char n := by decide

lemma fromSafe_toSafe_pad : fromSafeChar (toSafeChar '=') = '=' := by decide

/-- Decoding inverts encoding composed with the URL-safe substitution and its
reverse, at the byte-list level. -/
theorem decodeB64_safe_encodeB64 :
    ∀ l : List Nat, (∀ b ∈ l, b < 256) →
      decodeB64 (((encodeB64 l).map toSafeChar).map fromSafeChar) = l
  | [], _ => by simp [encodeB64, decodeB64]
  | [b0], h => by
      have hb0 : b0 < 256 := h b0 (by simp)
      have h1 : b0 / 4 < 64 := by omega
      have h2 : b0 % 4 * 16 < 64 := by omega
      rw [show ((encodeB64 [b0]).map toSafeChar).map fromSafeChar
          = [base64Char (b0 / 4), base64Char (b0 % 4 * 16), '=', '='] from by
        simp [encodeB64, fromSafe_toSafe_base64Char _ h1,
          fromSafe_toSafe_base64Char _ h2, fromSafe_toSafe_pad]]
      simp [decodeB64, base64Index_base64Char _ h1, base64Index_base64Char _ h2]
      omega
  | [b0, b1], h => by
      have hb0 : b0 < 256 := h b0 (by simp)
      have hb1 : b1 < 256 := h b1 (by simp)
      have h1 : b0 / 4 < 64 := by omega
      have h2 : b0 % 4 * 16 + b1 / 16 < 64 := by omega
      have h3 : b1 % 16 * 4 < 64 := by omega
      rw [show ((encodeB64 [b0, b1]).map toSafeChar).map fromSafeChar
          = [base64Char (b0 / 4), base64Char (b0 % 4 * 16 + b1 / 16),
             base64Char (b1 % 16 * 4), '='] from by
        simp [encodeB64, fromSafe_toSafe_base64Char _ h1,
          fromSafe_toSafe_base64Char _ h2, fromSafe_toSafe_base64Char _ h3,
          fromSafe_toSafe_pad]]
      simp [decodeB64, base64Char_ne_eq _ h3, base64Index_base64Char _ h1,
        base64Index_base64Char _ h2, base64Index_base64Char _ h3]
      omega
  | b0 :: b1 :: b2 :: d :: rest, h => by
      have hb0 : b0 < 256 := h b0 (by simp)
      have hb1 : b1 < 256 := h b1 (by simp)
      have hb2 : b2 < 256 := h b2 (by simp)
      have h1 : b0 / 4 < 64 := by omega
      have h2 : b0 % 4 * 16 + b1 / 16 < 64 := by omega
      have h3 : b1 % 16 * 4 + b2 / 64 < 64 := by omega
      have h4 : b2 % 64 < 64 := by omega
      have ih := decodeB64_safe_encodeB64 (d :: rest)
        (fun b hb => h b (by simp at hb ⊢; tauto))
      rw [show ((encodeB64 (b0 :: b1 :: b2 :: d :: rest)).map toSafeChar).map fromSafeChar
          = base64Char (b0 / 4) :: base64Char (b0 % 4 * 16 + b1 / 16) ::
            base64Char (b1 % 16 * 4 + b2 / 64) :: base64Char (b2 % 64) ::
            ((encodeB64 (d :: rest)).map toSafeChar).map fromSafeChar from by
        simp [encodeB64, fromSafe_toSafe_base64Char _ h1,
          fromSafe_toSafe_base64Char _ h2, fromSafe_toSafe_base64Char _ h3,
          fromSafe_toSafe_base64Char _ h4]]
      simp [decodeB64, base64Char_ne_eq _ h3, base64Char_ne_eq _ h4,
        base64Index_base64Char _ h1, base64Index_base64Char _ h2,
        base64Index_base64Char _ h3, base64Index_base64Char _ h4]
      rw [List.map_map] at ih
      exact ⟨by omega, by omega, by omega, ih⟩
  | [b0, b1, b2], h => by
      have hb0 : b0 < 256 := h b0 (by simp)
      have hb1 : b1 < 256 := h b1 (by simp)
      have hb2 : b2 < 256 := h b2 (by simp)
      have h1 : b0 / 4 < 64 := by omega
      have h2 : b0 % 4 * 16 + b1 / 16 < 64 := by omega
      have h3 : b1 % 16 * 4 + b2 / 64 < 64 := by omega
      have h4 : b2 % 64 < 64 := by omega
      rw [show ((encodeB64 [b0, b1, b2]).map toSafeChar).map fromSafeChar
          = [base64Char (b0 / 4), base64Char (b0 % 4 * 16 + b1 / 16),
             base64Char (b1 % 16 * 4 + b2 / 64), base64Char (b2 % 64)] from by
        simp [encodeB64, fromSafe_toSafe_base64Char _ h1,
          fromSafe_toSafe_base64Char _ h2, fromSafe_toSafe_base64Char _ h3,
          fromSafe_toSafe_base64Char _ h4]]
      simp [decodeB64, base64Char_ne_eq _ h3, base64Char_ne_eq _ h4,
        base64Index_base64Char _ h1, base64Index_base64Char _ h2,
        base64Index_base64Char _ h3, base64Index_base64Char _ h4]
      omega

/-- UTF-8 encoding of one Unicode scalar value (1 to 4 bytes). -/
def utf8EncodeChar (c : Char) : List Nat :=
  if c.toNat < 128 then [c.toNat]
  else if c.toNat < 2048 then [192 + c.toNat / 64, 128 + c.toNat % 64]
  else if c.toNat < 65536 then
    [224 + c.toNat / 4096, 128 + c.toNat / 64 % 64, 128 + c.toNat % 64]
  else
    [240 + c.toNat / 262144, 128 + c.toNat / 4096 % 64,
     128 + c.toNat / 64 % 64, 128 + c.toNat % 64]

/-- UTF-8 encoding of a character list (`Buffer.from(str, "utf-8")`). -/
def utf8EncodeList : List Char → List Nat
  | [] => []
  | c :: rest => utf8EncodeChar c ++ utf8EncodeList rest

/-- The Unicode replacement character U+FFFD. -/
def replChar : Char := Char.ofNat 65533

/-- One step of lenient UTF-8 decoding: given a leading byte and the bytes
after it, produce the decoded character and the remaining bytes. -/
def utf8Step (b : Nat) (rest : List Nat) : Char × List Nat :=
  if b < 128 then (Char.ofNat b, rest)
  else if b < 192 then (replChar, rest)
  else if b < 224 then
    match rest with
    | b1 :: rest2 => (Char.ofNat ((b - 192) * 64 + (b1 - 128)), rest2)
    | [] => (replChar, [])
  else if b < 240 then
    match rest with
    | b1 :: b2 :: rest3 =>
        (Char.ofNat ((b - 224) * 4096 + (b1 - 128) * 64 + (b2 - 128)), rest3)
    | _ => (replChar, [])
  else
    match rest with
    | b1 :: b2 :: b3 :: rest4 =>
        (Char.ofNat ((b - 240) * 262144 + (b1 - 128) * 4096 +
          (b2 - 128) * 64 + (b3 - 128)), rest4)
    | _ => (replChar, [])

lemma utf8Step_length (b : Nat) (rest : List Nat) :
    (utf8Step b rest).2.length ≤ rest.length := by
  unfold utf8Step
  split_ifs <;> (repeat' split) <;> simp_all <;> omega

/-- Lenient UTF-8 decoding (`buffer.toString("utf-8")`): malformed sequences
become the replacement character instead of failing.  Exact resynchronisation
on malformed input is approximated; no theorem below exercises a malformed
sequence. -/
def utf8DecodeLenient : List Nat → List Char
  | [] => []
  | b :: rest => (utf8Step b rest).1 :: utf8DecodeLenient (utf8Step b rest).2
termination_by l => l.length
decreasing_by exact Nat.lt_succ_of_le (utf8Step_length b rest)

lemma Char.toNat_lt (c : Char) : c.toNat < 1114112 := by
  rcases c.valid with h | ⟨h1, h2⟩ <;> simp [Char.toNat] <;> omega

lemma utf8EncodeChar_lt (c : Char) : ∀ b ∈ utf8EncodeChar c, b < 256 := by
  have hv := Char.toNat_lt c
  intro b hb
  unfold utf8EncodeChar at hb
  split_ifs at hb <;> simp at hb <;> omega

lemma utf8EncodeList_lt : ∀ l : List Char, ∀ b ∈ utf8EncodeList l, b < 256 := by
  intro l
  induction l with
  | nil => simp [utf8EncodeList]
  | cons c rest ih =>
      intro b hb
      simp only [utf8EncodeList, List.mem_append] at hb
      rcases hb with hb | hb
      · exact utf8EncodeChar_lt c b hb
      · exact ih b hb

lemma utf8Step_encodeChar (c : Char) (rest : List Nat) :
    ∃ b tail, utf8EncodeChar c ++ rest = b :: tail ∧ utf8Step b tail = (c, rest) := by
  have hv := Char.toNat_lt c
  have hval := Char.ofNat_toNat c
  unfold utf8EncodeChar
  split_ifs with h1 h2 h3
  · refine ⟨c.toNat, rest, by simp, ?_⟩
    unfold utf8Step
    rw [if_pos h1, hval]
  · refine ⟨192 + c.toNat / 64, (128 + c.toNat % 64) :: rest, by simp, ?_⟩
    unfold utf8Step
    rw [if_neg (by omega), if_neg (by omega), if_pos (by omega)]
    simp only []
    simp
    rw [show c.toNat / 64 * 64 + c.toNat % 64 = c.toNat from by omega, hval]
  · refine ⟨224 + c.toNat / 4096,
      (128 + c.toNat / 64 % 64) :: (128 + c.toNat % 64) :: rest, by simp, ?_⟩
    unfold utf8Step
    rw [if_neg (by omega), if_neg (by omega), if_neg (by omega), if_pos (by omega)]
    simp
    rw [show c.toNat / 4096 * 4096 + c.toNat / 64 % 64 * 64 + c.toNat % 64 = c.toNat from by
      omega, hval]
  · refine ⟨240 + c.toNat / 262144, (128 + c.toNat / 4096 % 64) ::
      (128 + c.toNat / 64 % 64) :: (128 + c.toNat % 64) :: rest, by simp, ?_⟩
    unfold utf8Step
    rw [if_neg (by omega), if_neg (by omega), if_neg (by omega), if_neg (by omega)]
    simp
    rw [show c.toNat / 262144 * 262144 + c.toNat / 4096 % 64 * 4096 + c.toNat / 64 % 64 * 64 +
      c.toNat % 64 = c.toNat from by omega, hval]

lemma utf8DecodeLenient_encodeChar (c : Char) (rest : List Nat) :
    utf8DecodeLenient (utf8EncodeChar c ++ rest) = c :: utf8DecodeLenient rest := by
  obtain ⟨b, tail, heq, hstep⟩ := utf8Step_encodeChar c rest
  rw [heq, utf8DecodeLenient, hstep]

lemma utf8DecodeLenient_encodeList : ∀ l : List Char,
    utf8DecodeLenient (utf8EncodeList l) = l := by
  intro l
  induction l with
  | nil => simp [utf8EncodeList, utf8DecodeLenient]
  | cons c rest ih => rw [utf8EncodeList, utf8DecodeLenient_encodeChar, ih]

/-- The function `toUrlSafeBase64(str)` from `paysera-request-builder.ts`:
UTF-8 encode, base64 encode, then globally substitute slash by underscore and
plus by dash. -/
def toUrlSafeBase64 (s : String) : String :=
  String.mk ((encodeB64 (utf8EncodeList s.data)).map toSafeChar)

/-- The function `fromUrlSafeBase64(str)` from `paysera-request-builder.ts`:
globally substitute underscore by slash and dash by plus, then base64 decode
and UTF-8 decode. -/
def fromUrlSafeBase64 (s : String) : String :=
  String.mk (utf8DecodeLenient (decodeB64 (s.data.map fromSafeChar)))

lemma urlSafeBase64_roundtrip (s : String) :
    fromUrlSafeBase64 (toUrlSafeBase64 s) = s := by
  show String.mk (utf8DecodeLenient (decodeB64
    (((encodeB64 (utf8EncodeList s.data)).map toSafeChar).map fromSafeChar))) = s
  rw [decodeB64_safe_encodeB64 _ (utf8EncodeList_lt s.data),
    utf8DecodeLenient_encodeList]

/-- C2: for every string `s`, including the empty string,
`fromUrlSafeBase64 (toUrlSafeBase64 s) = s`, where `toUrlSafeBase64` is
standard base64 with slash replaced by underscore and plus replaced by dash
(padding `=` preserved) and `fromUrlSafeBase64` reverses the two
substitutions then base64-decodes. -/
theorem c2_fromUrlSafeBase64_toUrlSafeBase64 (s : String) :
    fromUrlSafeBase64 (toUrlSafeBase64 s) = s :=
  urlSafeBase64_roundtrip s

/-- One step of strict UTF-8 decoding, rejecting truncated sequences and
out-of-place continuation bytes (`decodeURIComponent` throws on those). -/
def utf8StepStrict (b : Nat) (rest : List Nat) : Option (Char × List Nat) :=
  if b < 128 then some (Char.ofNat b, rest)
  else if b < 192 then none
  else if b < 224 then
    match rest with
    | b1 :: rest2 =>
        if 128 ≤ b1 ∧ b1 < 192 then
          some (Char.ofNat ((b - 192) * 64 + (b1 - 128)), rest2)
        else none
    | [] => none
  else if b < 240 then
    match rest with
    | b1 :: b2 :: rest3 =>
        if (128 ≤ b1 ∧ b1 < 192) ∧ (128 ≤ b2 ∧ b2 < 192) then
          some (Char.ofNat ((b - 224) * 4096 + (b1 - 128) * 64 + (b2 - 128)), rest3)
        else none
    | _ => none
  else if b < 248 then
    match rest with
    | b1 :: b2 :: b3 :: rest4 =>
        if (128 ≤ b1 ∧ b1 < 192) ∧ (128 ≤ b2 ∧ b2 < 192) ∧ (128 ≤ b3 ∧ b3 < 192) then
          some (Char.ofNat ((b - 240) * 262144 + (b1 - 128) * 4096 +
            (b2 - 128) * 64 + (b3 - 128)), rest4)
        else none
    | _ => none
  else none

lemma utf8StepStrict_length (b : Nat) (rest : List Nat) (c : Char) (r : List Nat)
    (h : utf8StepStrict b rest = some (c, r)) : r.length ≤ rest.length := by
  unfold utf8StepStrict at h
  split_ifs at h <;> (repeat' split at h) <;> simp_all <;> omega

/-- Strict UTF-8 decoding of a byte sequence; `none` models a thrown error. -/
def utf8DecodeStrict : List Nat → Option (List Char)
  | [] => some []
  | b :: rest =>
    match h : utf8StepStrict b rest with
    | none => none
    | some (c, r) => (utf8DecodeStrict r).map (c :: ·)
termination_by l => l.length
decreasing_by exact Nat.lt_succ_of_le (utf8StepStrict_length b rest c r h)

lemma utf8StepStrict_encodeChar (c : Char) (rest : List Nat) :
    ∃ b tail, utf8EncodeChar c ++ rest = b :: tail ∧
      utf8StepStrict b tail = some (c, rest) := by
  have hv := Char.toNat_lt c
  have hval := Char.ofNat_toNat c
  unfold utf8EncodeChar
  split_ifs with h1 h2 h3
  · refine ⟨c.toNat, rest, by simp, ?_⟩
    unfold utf8StepStrict
    rw [if_pos h1, hval]
  · refine ⟨192 + c.toNat / 64, (128 + c.toNat % 64) :: rest, by simp, ?_⟩
    unfold utf8StepStrict
    rw [if_neg (by omega), if_neg (by omega), if_pos (by omega)]
    simp only [if_pos (by constructor <;> omega : 128 ≤ 128 + c.toNat % 64 ∧
      128 + c.toNat % 64 < 192)]
    simp
    rw [show c.toNat / 64 * 64 + c.toNat % 64 = c.toNat from by omega, hval]
  · refine ⟨224 + c.toNat / 4096,
      (128 + c.toNat / 64 % 64) :: (128 + c.toNat % 64) :: rest, by simp, ?_⟩
    unfold utf8StepStrict
    rw [if_neg (by omega), if_neg (by omega), if_neg (by omega), if_pos (by omega)]
    simp only [if_pos (by refine ⟨⟨?_, ?_⟩, ?_, ?_⟩ <;> omega :
      (128 ≤ 128 + c.toNat / 64 % 64 ∧ 128 + c.toNat / 64 % 64 < 192) ∧
      128 ≤ 128 + c.toNat % 64 ∧ 128 + c.toNat % 64 < 192)]
    simp
    rw [show c.toNat / 4096 * 4096 + c.toNat / 64 % 64 * 64 + c.toNat % 64 = c.toNat from by
      omega, hval]
  · refine ⟨240 + c.toNat / 262144, (128 + c.toNat / 4096 % 64) ::
      (128 + c.toNat / 64 % 64) :: (128 + c.toNat % 64) :: rest, by simp, ?_⟩
    unfold utf8StepStrict
    rw [if_neg (by omega), if_neg (by omega), if_neg (by omega), if_neg (by omega),
      if_pos (by omega)]
    simp only [if_pos (by refine ⟨⟨?_, ?_⟩, ⟨?_, ?_⟩, ?_, ?_⟩ <;> omega :
      (128 ≤ 128 + c.toNat / 4096 % 64 ∧ 128 + c.toNat / 4096 % 64 < 192) ∧
      (128 ≤ 128 + c.toNat / 64 % 64 ∧ 128 + c.toNat / 64 % 64 < 192) ∧
      128 ≤ 128 + c.toNat % 64 ∧ 128 + c.toNat % 64 < 192)]
    simp
    rw [show c.toNat / 262144 * 262144 + c.toNat / 4096 % 64 * 4096 + c.toNat / 64 % 64 * 64 +
      c.toNat % 64 = c.toNat from by omega, hval]

lemma utf8DecodeStrict_encodeChar (c : Char) (rest : List Nat) :
    utf8DecodeStrict (utf8EncodeChar c ++ rest) = (utf8DecodeStrict rest).map (c :: ·) := by
  obtain ⟨b, tail, heq, hstep⟩ := utf8StepStrict_encodeChar c rest
  rw [heq, utf8DecodeStrict, hstep]

lemma utf8DecodeStrict_encodeList : ∀ l : List Char,
    utf8DecodeStrict (utf8EncodeList l) = some l := by
  intro l
  induction l with
  | nil => simp [utf8EncodeList, utf8DecodeStrict]
  | cons c rest ih => rw [utf8EncodeList, utf8DecodeStrict_encodeChar, ih]; rfl

/-- The characters `encodeURIComponent` leaves unescaped:
ASCII alphanumerics and `- _ . ! ~ * ' ( )`. -/
def isUnreservedComponent (c : Char) : Bool :=
  (48 ≤ c.toNat && c.toNat ≤ 57) || (65 ≤ c.toNat && c.toNat ≤ 90) ||
  (97 ≤ c.toNat && c.toNat ≤ 122) ||
  c == '-' || c == '_' || c == '.' || c == '!' || c == '~' || c == '*' ||
  c == Char.ofNat 39 || c == '(' || c == ')'

/-- Upper-case hex digit for a value 0..15 (as `encodeURIComponent` emits). -/
def hexDigitUpper (n : Nat) : Char :=
  if n < 10 then Char.ofNat (48 + n) else Char.ofNat (55 + n)

/-- Numeric value of a hex digit character, upper or lower case. -/
def hexVal (c : Char) : Option Nat :=
  if 48 ≤ c.toNat ∧ c.toNat ≤ 57 then some (c.toNat - 48)
  else if 65 ≤ c.toNat ∧ c.toNat ≤ 70 then some (c.toNat - 55)
  else if 97 ≤ c.toNat ∧ c.toNat ≤ 102 then some (c.toNat - 87)
  else none

/-- Percent-escape of a byte sequence: each byte becomes `%XY`. -/
def pctEncodeBytes : List Nat → List Char
  | [] => []
  | b :: rest => '%' :: hexDigitUpper (b / 16) :: hexDigitUpper (b % 16) :: pctEncodeBytes rest

/-- Character-level body of `encodeURIComponent`: unreserved characters pass
through, every other character is UTF-8 encoded and percent-escaped. -/
def encodeURIChars : List Char → List Char
  | [] => []
  | c :: rest =>
      (if isUnreservedComponent c then [c] else pctEncodeBytes (utf8EncodeChar c)) ++
      encodeURIChars rest

/-- The JavaScript builtin `encodeURIComponent` (RFC 3986 component encoding). -/
def jsEncodeURIComponent (s : String) : String :=
  String.mk (encodeURIChars s.data)

/-- One step of the byte-level front end of `decodeURIComponent`: a `%XY`
escape contributes the byte `XY`; any other character contributes its UTF-8
bytes; a malformed escape gives `none` (the thrown `URIError`). -/
def pctStep (c : Char) (rest : List Char) : Option (List Nat × List Char) :=
  if c = '%' then
    match rest with
    | h1 :: h2 :: rest2 =>
        match hexVal h1, hexVal h2 with
        | some a, some b => some ([a * 16 + b], rest2)
        | _, _ => none
    | _ => none
  else some (utf8EncodeChar c, rest)

lemma pctStep_length (c : Char) (rest : List Char) (bs : List Nat) (r : List Char)
    (h : pctStep c rest = some (bs, r)) : r.length ≤ rest.length := by
  unfold pctStep at h
  split_ifs at h <;> (repeat' split at h) <;> simp_all <;> omega

/-- Byte-level front end of `decodeURIComponent` over a whole character list. -/
def pctDecodeBytes : List Char → Option (List Nat)
  | [] => some []
  | c :: rest =>
      match h : pctStep c rest with
      | none => none
      | some (bs, r) => (pctDecodeBytes r).map (fun l => bs ++ l)
termination_by l => l.length
decreasing_by exact Nat.lt_succ_of_le (pctStep_length c rest bs r h)

/-- The JavaScript builtin `decodeURIComponent`; `none` models the thrown
`URIError` on malformed percent-escapes or invalid UTF-8. -/
def jsDecodeURIComponent (s : String) : Option String :=
  (pctDecodeBytes s.data).bind (fun bs => (utf8DecodeStrict bs).map String.mk)

lemma hexVal_hexDigitUpper : ∀ n < 16, hexVal (hexDigitUpper n) = some n := by decide

lemma pctDecodeBytes_pctEncodeBytes :
    ∀ (bs : List Nat), (∀ b ∈ bs, b < 256) → ∀ tail : List Char,
      pctDecodeBytes (pctEncodeBytes bs ++ tail) =
        (pctDecodeBytes tail).map (fun l => bs ++ l) := by
  intro bs
  induction bs with
  | nil =>
      intro _ tail
      simp [pctEncodeBytes]
  | cons b rest ih =>
      intro h tail
      have hb : b < 256 := h b (by simp)
      have h1 : b / 16 < 16 := by omega
      have h2 : b % 16 < 16 := by omega
      have hb2 : b / 16 * 16 + b % 16 = b := by omega
      rw [pctEncodeBytes, List.cons_append, List.cons_append, List.cons_append]
      have hstep : pctStep '%' (hexDigitUpper (b / 16) :: hexDigitUpper (b % 16) ::
          (pctEncodeBytes rest ++ tail)) = some ([b], pctEncodeBytes rest ++ tail) := by
        unfold pctStep
        rw [if_pos rfl]
        simp [hexVal_hexDigitUpper _ h1, hexVal_hexDigitUpper _ h2, hb2]
      rw [pctDecodeBytes, hstep]
      have ih2 := ih (fun x hx => h x (by simp [hx])) tail
      simp only [ih2]
      cases pctDecodeBytes tail <;> simp

lemma isUnreservedComponent_ne (c : Char) (hu : isUnreservedComponent c = true) :
    c ≠ '%' ∧ c ≠ '&' ∧ c ≠ '=' := by
  refine ⟨?_, ?_, ?_⟩ <;> intro he <;> subst he <;> revert hu <;> decide

lemma pctDecodeBytes_encodeURIChars :
    ∀ l : List Char, pctDecodeBytes (encodeURIChars l) = some (utf8EncodeList l) := by
  intro l
  induction l with
  | nil => simp [encodeURIChars, pctDecodeBytes, utf8EncodeList]
  | cons c rest ih =>
      by_cases hu : isUnreservedComponent c
      · have hc : c ≠ '%' := (isUnreservedComponent_ne c hu).1
        have hstep : pctStep c (encodeURIChars rest) =
            some (utf8EncodeChar c, encodeURIChars rest) := by
          unfold pctStep
          rw [if_neg hc]
        rw [encodeURIChars, if_pos hu, List.singleton_append, pctDecodeBytes, hstep]
        simp [ih, utf8EncodeList]
      · rw [encodeURIChars, if_neg hu,
          pctDecodeBytes_pctEncodeBytes (utf8EncodeChar c) (utf8EncodeChar_lt c), ih]
        simp [utf8EncodeList]

/-- Round trip of the JavaScript URI-component codec. -/
theorem jsDecode_jsEncodeURIComponent (s : String) :
    jsDecodeURIComponent (jsEncodeURIComponent s) = some s := by
  show (pctDecodeBytes (encodeURIChars s.data)).bind
    (fun bs => (utf8DecodeStrict bs).map String.mk) = some s
  rw [pctDecodeBytes_encodeURIChars]
  show (utf8DecodeStrict (utf8EncodeList s.data)).map String.mk = some s
  rw [utf8DecodeStrict_encodeList]
  rfl

/-- The error classes of `paysera-errors.ts` as a closed tagged union, plus
`uriError` for the `URIError` a JS builtin can throw inside the handler. -/
inductive PayseraError where
  | callbackDataError (message : String)
  | signatureError
  | configError (message : String)
  | uriError
deriving DecidableEq, Repr

/-- The interface `PayseraCallbackData` of `paysera-types.ts`; `amount` and
`status` are the integers produced by `parseInt(_, 10)`. -/
structure PayseraCallbackData where
  projectid : String
  orderid : String
  amount : Int
  currency : String
  status : Int
  requestid : String
  paytext : Option String
  name : Option String
  surename : Option String
  payment : Option String
  country : Option String
  test : Option Nat
deriving DecidableEq, Repr

/-- The raw callback shape `PayseraRawCallback` of
`paysera-callback-handler.ts`. -/
structure PayseraRawCallback where
  data : String
  ss1 : String
  ss2 : Option String := none
deriving DecidableEq, Repr

/-- JavaScript `String.prototype.split` with a single-character separator
(an empty input yields one empty field, a trailing separator an empty last
field). -/
def splitOnChar (sep : Char) : List Char → List (List Char)
  | [] => [[]]
  | c :: rest =>
      if c = sep then [] :: splitOnChar sep rest
      else (c :: (splitOnChar sep rest).headD []) :: (splitOnChar sep rest).tail

/-- ASCII fragment of `String.prototype.toLowerCase` (the compared MD5 hex
digests are ASCII). -/
def jsToLowerChar (c : Char) : Char :=
  if 65 ≤ c.toNat ∧ c.toNat ≤ 90 then Char.ofNat (c.toNat + 32) else c

/-- JavaScript `toLowerCase` on a string. -/
def jsToLowerCase (s : String) : String := String.mk (s.data.map jsToLowerChar)

/-- JavaScript whitespace accepted by `parseInt` (ASCII fragment). -/
def jsWhitespace (c : Char) : Bool :=
  c == ' ' || c == Char.ofNat 9 || c == Char.ofNat 10 || c == Char.ofNat 13 ||
  c == Char.ofNat 11 || c == Char.ofNat 12

/-- JavaScript `parseInt(s, 10)`: skip leading whitespace, read an optional
sign, then the maximal run of decimal digits; `none` models `NaN`. -/
def jsParseInt10 (s : String) : Option Int :=
  let cs := s.data.dropWhile jsWhitespace
  let sc : Int × List Char :=
    match cs with
    | '-' :: t => (-1, t)
    | '+' :: t => (1, t)
    | _ => (1, cs)
  let digits := sc.2.takeWhile (fun c => 48 ≤ c.toNat && c.toNat ≤ 57)
  if digits = [] then none
  else some (sc.1 * digits.foldl (fun a c => a * 10 + ((c.toNat : Int) - 48)) 0)

/-- Processing of one `key=value` pair inside `parseQueryString`:
`none` is a thrown `URIError`, `some none` a skipped pair (falsy key),
`some (some (k, v))` a decoded binding.  `pair.split("=")` destructures as
`[key, value]`, so `key` is the first field and `value` the second
(anything after a second `=` is dropped); a missing or empty `value` is
stored as the empty string without decoding. -/
def qsStep (pair : List Char) : Option (Option (String × String)) :=
  if (splitOnChar '=' pair).headD [] = [] then some none
  else
    match jsDecodeURIComponent (String.mk ((splitOnChar '=' pair).headD [])) with
    | none => none
    | some dkey =>
        match (match (splitOnChar '=' pair).get? 1 with
               | none => some ""
               | some v => if v = [] then some ""
                           else jsDecodeURIComponent (String.mk v)) with
        | none => none
        | some dval => some (some (dkey, dval))

/-- The `forEach` loop of `parseQueryString`, processing pairs left to right
over an accumulated record (modelled as a lookup function); a later binding
of the same key shadows an earlier one. -/
def parseQSPairs : List (List Char) → (String → Option String) →
    Except PayseraError (String → Option String)
  | [], params => .ok params
  | pair :: rest, params =>
      match qsStep pair with
      | none => .error .uriError
      | some none => parseQSPairs rest params
      | some (some (dkey, dval)) =>
          parseQSPairs rest (fun k => if k = dkey then some dval else params k)

/-- `parseQueryString` from `paysera-callback-handler.ts`. -/
def parseQueryString (queryString : String) : Except PayseraError (String → Option String) :=
  parseQSPairs (splitOnChar '&' queryString.data) (fun _ => none)

/-- `decodeCallbackData` from `paysera-callback-handler.ts`. -/
def decodeCallbackData (data : String) : Except PayseraError (String → Option String) :=
  parseQueryString (fromUrlSafeBase64 data)

/-- The required-field list of `parseCallbackData`, in source order. -/
def requiredFields : List String :=
  ["projectid", "orderid", "amount", "currency", "status", "requestid"]

/-- `parseCallbackData` from `paysera-callback-handler.ts`.  The `for` loop
throws at the first required field absent from the record, matching
`List.find?` over the field list. -/
def parseCallbackData (rawData : String → Option String) :
    Except PayseraError PayseraCallbackData :=
  match requiredFields.find? (fun f => (rawData f).isNone) with
  | some f => .error (.callbackDataError ("Missing required field: " ++ f))
  | none =>
    match jsParseInt10 ((rawData "amount").getD "") with
    | none => .error (.callbackDataError "Invalid amount value")
    | some amount =>
      match jsParseInt10 ((rawData "status").getD "") with
      | none => .error (.callbackDataError "Invalid status value")
      | some status =>
        .ok
          { projectid := (rawData "projectid").getD ""
            orderid := (rawData "orderid").getD ""
            amount := amount
            currency := (rawData "currency").getD ""
            status := status
            requestid := (rawData "requestid").getD ""
            paytext := rawData "paytext"
            name := rawData "name"
            surename := rawData "surename"
            payment := rawData "payment"
            country := rawData "country"
            test := if rawData "test" = some "1" then some 1
                    else if rawData "test" = some "0" then some 0 else none }

/-- `generateSignature` from `paysera-request-builder.ts`:
`md5(data + password)` as hex, with the digest abstract. -/
def generateSignature (md5Hex : String → String) (data password : String) : String :=
  md5Hex (data ++ password)

/-- `verifySignature` from `paysera-callback-handler.ts`: case-insensitive
comparison of the recomputed and the supplied signature. -/
def verifySignature (md5Hex : String → String) (data ss1 password : String) : Bool :=
  jsToLowerCase (generateSignature md5Hex data password) == jsToLowerCase ss1

/-- `verifyAndDecodeCallback` with the decode stage abstracted, to express
that no error path inspects decoded payload content. -/
def verifyAndDecodeCallbackWith (md5Hex : String → String)
    (decode : String → Except PayseraError (String → Option String))
    (rawCallback : PayseraRawCallback) (password : String) :
    Except PayseraError PayseraCallbackData :=
  if rawCallback.data = "" ∨ rawCallback.ss1 = "" then
    .error (.callbackDataError "Missing data or signature in callback")
  else if verifySignature md5Hex rawCallback.data rawCallback.ss1 password = false then
    .error .signatureError
  else
    match decode rawCallback.data with
    | .error e => .error e
    | .ok decodedData => parseCallbackData decodedData

/-- `verifyAndDecodeCallback` from `paysera-callback-handler.ts`. -/
def verifyAndDecodeCallback (md5Hex : String → String)
    (rawCallback : PayseraRawCallback) (password : String) :
    Except PayseraError PayseraCallbackData :=
  verifyAndDecodeCallbackWith md5Hex decodeCallbackData rawCallback password

/-- The interface `PayseraConfig` of `paysera-types.ts`. -/
structure PayseraConfig where
  projectId : String
  password : String
  testMode : Bool
deriving DecidableEq, Repr

/-- The interface `PayseraCallbackUrls` of `paysera-types.ts`. -/
structure PayseraCallbackUrls where
  acceptUrl : String
  cancelUrl : String
  callbackUrl : String
deriving DecidableEq, Repr

/-- The interface `CreatePaymentOptions` of `paysera-client.ts`; `amount` is a
major-unit decimal, modelled as a rational. -/
structure CreatePaymentOptions where
  transactionId : String
  amount : ℚ
  currency : String
  urls : PayseraCallbackUrls
  customerEmail : Option String := none
  customerFirstName : Option String := none
  customerLastName : Option String := none
  paymentDescription : Option String := none
  language : Option String := none

/-- The result interface `PayseraPaymentRequest` of `paysera-types.ts`. -/
structure PayseraPaymentRequest where
  redirectUrl : String
  orderId : String
deriving DecidableEq, Repr

/-- The constant object `PayseraStatus` of `paysera-types.ts`. -/
def PayseraStatus.PENDING : Int := 0

/-- Status code 1: successful payment. -/
def PayseraStatus.SUCCESS : Int := 1

/-- Status code 2: payment accepted but not yet executed. -/
def PayseraStatus.ACCEPTED_NOT_EXECUTED : Int := 2

/-- Status code 3: additional information required. -/
def PayseraStatus.ADDITIONAL_INFO_REQUIRED : Int := 3

/-- The filter of `encodeParams`: drop `undefined`, `null` and `""` values. -/
def keepParam : Option String → Bool
  | none => false
  | some v => v ≠ ""

/-- `Array.prototype.join("&")`. -/
def joinAmp : List String → String
  | [] => ""
  | [s] => s
  | s :: rest => s ++ "&" ++ joinAmp rest

/-- `encodeParams` from `paysera-request-builder.ts`.  `Object.entries` of the
params object is modelled as an ordered list of key/value entries; a value is
`none` for `undefined` (and `null`), otherwise the string JS coerces it to.
Entries whose value is `undefined`, `null` or the empty string are filtered
out; the rest become percent-encoded `key=value` fields joined by `&`. -/
def encodeParams (params : List (String × Option String)) : String :=
  joinAmp ((params.filter (fun p => keepParam p.2)).map
    (fun p => jsEncodeURIComponent p.1 ++ "=" ++ jsEncodeURIComponent (p.2.getD "")))

/-- `buildRequest` from `paysera-request-builder.ts`: encode the parameters,
base64url them, and sign. -/
def buildRequest (md5Hex : String → String) (params : List (String × Option String))
    (password : String) : String × String :=
  let data := toUrlSafeBase64 (encodeParams params)
  (data, generateSignature md5Hex data password)

/-- `getPaymentUrl` from `paysera-request-builder.ts`. -/
def getPaymentUrl (data sign : String) : String :=
  "https://www.paysera.com/pay/" ++ "?data=" ++ data ++ "&sign=" ++ sign

/-- `buildPaymentUrl` from `paysera-request-builder.ts`. -/
def buildPaymentUrl (md5Hex : String → String) (params : List (String × Option String))
    (password : String) : String :=
  getPaymentUrl (buildRequest md5Hex params password).1 (buildRequest md5Hex params password).2

/-- Is a character ASCII alphanumeric (the class `[a-zA-Z0-9]`)? -/
def isAsciiAlnum (c : Char) : Bool :=
  (48 ≤ c.toNat && c.toNat ≤ 57) || (65 ≤ c.toNat && c.toNat ≤ 90) ||
  (97 ≤ c.toNat && c.toNat ≤ 122)

/-- `PayseraClient.generateOrderId`: strip non-alphanumerics from the
transaction id and keep at most 8 characters, drop the dashes of a freshly
generated UUIDv7 and keep 24 characters, concatenate, truncate to 40.
The fresh `uuidv7()` value is an explicit argument. -/
def generateOrderId (transactionId uuid : String) : String :=
  String.mk (((transactionId.data.filter isAsciiAlnum).take 8 ++
    (uuid.data.filter (fun c => !(c == '-'))).take 24).take 40)

/-- `Math.round` on a rational: round half away from zero upward, which on
rationals is `⌊x + 1/2⌋` (Mathlib's `round`). -/
def jsMathRound (q : ℚ) : ℤ := round q

/-- `PayseraClient.toMinorUnits`: `Math.round(amount * 100)`. -/
def toMinorUnits (amount : ℚ) : ℤ := jsMathRound (amount * 100)

/-- JS truthiness of an optional string (`undefined` and `""` are falsy). -/
def truthy : Option String → Bool
  | none => false
  | some s => s ≠ ""

/-- The `params` object literal built by `PayseraClient.createPaymentRequest`,
as an ordered entry list: required fields in literal order, then each optional
field appended when its source option is truthy. -/
def buildRequestParams (config : PayseraConfig) (options : CreatePaymentOptions)
    (orderId : String) : List (String × Option String) :=
  [("projectid", some config.projectId),
   ("orderid", some orderId),
   ("accepturl", some options.urls.acceptUrl),
   ("cancelurl", some options.urls.cancelUrl),
   ("callbackurl", some options.urls.callbackUrl),
   ("version", some "1.6"),
   ("amount", some (toString (toMinorUnits options.amount))),
   ("currency", some options.currency),
   ("test", some (if config.testMode then "1" else "0"))] ++
  (if truthy options.customerEmail then [("p_email", options.customerEmail)] else []) ++
  (if truthy options.customerFirstName then
    [("p_firstname", options.customerFirstName)] else []) ++
  (if truthy options.customerLastName then
    [("p_lastname", options.customerLastName)] else []) ++
  (if truthy options.paymentDescription then
    [("paytext", options.paymentDescription)] else []) ++
  (if truthy options.language then [("lang", options.language)] else [])

/-- The `PayseraClient` constructor: rejects a config whose `projectId` or
`password` is falsy (for strings: empty). -/
def payseraClientInit (config : PayseraConfig) : Except PayseraError PayseraConfig :=
  if config.projectId = "" ∨ config.password = "" then
    .error (.configError "Project ID and password are required")
  else .ok config

/-- `PayseraClient.createPaymentRequest` (total: no validation inside). -/
def createPaymentRequest (md5Hex : String → String) (config : PayseraConfig)
    (options : CreatePaymentOptions) (uuid : String) : PayseraPaymentRequest :=
  let orderId := generateOrderId options.transactionId uuid
  { redirectUrl := buildPaymentUrl md5Hex (buildRequestParams config options orderId)
      config.password
    orderId := orderId }

/-- `PayseraClient.processCallback`. -/
def processCallback (md5Hex : String → String) (config : PayseraConfig)
    (rawCallback : PayseraRawCallback) : Except PayseraError PayseraCallbackData :=
  verifyAndDecodeCallback md5Hex rawCallback config.password

/-- `PayseraClient.isPaymentSuccessful`. -/
def isPaymentSuccessful (callbackData : PayseraCallbackData) : Bool :=
  callbackData.status == PayseraStatus.SUCCESS

/-- `PayseraClient.isPaymentPending`. -/
def isPaymentPending (callbackData : PayseraCallbackData) : Bool :=
  callbackData.status == PayseraStatus.PENDING ||
  callbackData.status == PayseraStatus.ACCEPTED_NOT_EXECUTED

lemma parseQSPairs_error :
    ∀ (pairs : List (List Char)) (params : String → Option String) (e : PayseraError),
      parseQSPairs pairs params = .error e → e = .uriError := by
  intro pairs
  induction pairs with
  | nil =>
      intro params e h
      simp [parseQSPairs] at h
  | cons p rest ih =>
      intro params e h
      rw [parseQSPairs] at h
      rcases hq : qsStep p with _ | q
      · rw [hq] at h
        simp at h
        exact h.symm
      · rcases q with _ | ⟨dk, dv⟩
        · rw [hq] at h
          exact ih _ _ h
        · rw [hq] at h
          exact ih _ _ h

lemma decodeCallbackData_error (s : String) (e : PayseraError)
    (h : decodeCallbackData s = .error e) : e = .uriError :=
  parseQSPairs_error _ _ _ h

lemma parseCallbackData_error (raw : String → Option String) (e : PayseraError)
    (h : parseCallbackData raw = .error e) : ∃ m, e = .callbackDataError m := by
  unfold parseCallbackData at h
  repeat' split at h
  all_goals simp_all
  all_goals exact ⟨_, h.symm⟩

/-- C5: `isPaymentSuccessful e` is true exactly when `e.status = 1`, and
`isPaymentPending e` is true exactly when `e.status` is `0` or `2`; for
status `3` and every other integer both are false.  Both are total Lean
functions into `Bool`, so there is no failure path. -/
theorem c5_status_classification (e : PayseraCallbackData) :
    (isPaymentSuccessful e = true ↔ e.status = 1) ∧
    (isPaymentPending e = true ↔ (e.status = 0 ∨ e.status = 2)) := by
  constructor
  · simp [isPaymentSuccessful, PayseraStatus.SUCCESS]
  · simp [isPaymentPending, PayseraStatus.PENDING, PayseraStatus.ACCEPTED_NOT_EXECUTED]

/-- Witness for C5 at concrete callback events of status 1, 0 and 3. -/
theorem c5_status_classification_witness :
    isPaymentSuccessful ⟨"p", "o", 1000, "EUR", 1, "r",
      none, none, none, none, none, none⟩ = true ∧
    isPaymentPending ⟨"p", "o", 1000, "EUR", 0, "r",
      none, none, none, none, none, none⟩ = true ∧
    isPaymentSuccessful ⟨"p", "o", 1000, "EUR", 3, "r",
      none, none, none, none, none, none⟩ = false :=
  ⟨(c5_status_classification _).1.mpr rfl,
   (c5_status_classification _).2.mpr (Or.inl rfl),
   by
    have h := (c5_status_classification ⟨"p", "o", 1000, "EUR", 3, "r",
      none, none, none, none, none, none⟩).1
    simp at h
    simp [h]⟩

/-- C8: the builder transmits `round(amount * 100)` minor units: the encoded
`amount` entry is `toString (toMinorUnits amount)`, `toMinorUnits` is
`round (amount * 100)`, and `10.50` maps to `1050`. -/
theorem c8_minor_units :
    (∀ a : ℚ, toMinorUnits a = round (a * 100)) ∧
    toMinorUnits (10.5 : ℚ) = 1050 ∧
    (∀ (config : PayseraConfig) (options : CreatePaymentOptions) (orderId : String),
      ("amount", some (toString (toMinorUnits options.amount))) ∈
        buildRequestParams config options orderId) := by
  refine ⟨fun a => rfl, ?_, ?_⟩
  · norm_num [toMinorUnits, jsMathRound, round_eq]
  · intro config options orderId
    simp [buildRequestParams]

/-- C9: the `PayseraClient` constructor fails with the configuration error
exactly when `projectId` or `password` is empty; a constructed client is the
config unchanged; `processCallback` never raises a configuration error, and
`createPaymentRequest` is total and performs no validation. -/
theorem c9_constructor_single_gate :
    (∀ config : PayseraConfig,
      (payseraClientInit config =
          .error (.configError "Project ID and password are required") ↔
        (config.projectId = "" ∨ config.password = "")) ∧
      (∀ e, payseraClientInit config = .error e →
        e = .configError "Project ID and password are required") ∧
      (¬(config.projectId = "" ∨ config.password = "") →
        payseraClientInit config = .ok config)) ∧
    (∀ (md5Hex : String → String) (config : PayseraConfig)
        (raw : PayseraRawCallback) (m : String),
      processCallback md5Hex config raw ≠ .error (.configError m)) ∧
    (∀ (md5Hex : String → String) (config : PayseraConfig)
        (options : CreatePaymentOptions) (uuid : String),
      (createPaymentRequest md5Hex config options uuid).orderId =
        generateOrderId options.transactionId uuid) := by
  refine ⟨?_, ?_, fun _ _ _ _ => rfl⟩
  · intro config
    refine ⟨?_, ?_, ?_⟩
    · unfold payseraClientInit
      split_ifs with h <;> simp [h]
    · intro e h
      unfold payseraClientInit at h
      split_ifs at h <;> simp_all
    · intro h
      unfold payseraClientInit
      rw [if_neg h]
  · intro md5Hex config raw m h
    unfold processCallback verifyAndDecodeCallback verifyAndDecodeCallbackWith at h
    split_ifs at h
    · simp at h
    · simp at h
    · rcases hd : decodeCallbackData raw.data with e | d
      · rw [hd] at h
        simp at h
        have := decodeCallbackData_error _ _ hd
        simp_all
      · rw [hd] at h
        obtain ⟨m2, hm⟩ := parseCallbackData_error _ _ h
        simp at hm

/-- Witness for C9: an empty project id is rejected, a valid config accepted,
and a callback with empty payload never yields a configuration error. -/
theorem c9_constructor_single_gate_witness :
    payseraClientInit ⟨"", "pw", true⟩ =
      .error (.configError "Project ID and password are required") ∧
    payseraClientInit ⟨"123", "pw", true⟩ = .ok ⟨"123", "pw", true⟩ ∧
    processCallback (fun s => s) ⟨"123", "pw", true⟩ ⟨"", "x", none⟩ ≠
      .error (.configError "Invalid or missing Paysera configuration") :=
  ⟨((c9_constructor_single_gate.1 ⟨"", "pw", true⟩).1).mpr (Or.inl rfl),
   (c9_constructor_single_gate.1 ⟨"123", "pw", true⟩).2.2 (by simp),
   c9_constructor_single_gate.2.1 _ _ _ _⟩

/-- Is a character a hex digit (either case)? -/
def isHexDigit (c : Char) : Bool := (hexVal c).isSome

/-- A canonical textual UUID: five hex groups of sizes 8-4-4-4-12 joined by
dashes, the shape produced by `uuidv7()`. -/
def isCanonicalUuid (u : String) : Prop :=
  ∃ a b c d e : List Char,
    u.data = a ++ '-' :: b ++ '-' :: c ++ '-' :: d ++ '-' :: e ∧
    a.length = 8 ∧ b.length = 4 ∧ c.length = 4 ∧ d.length = 4 ∧ e.length = 12 ∧
    (∀ ch ∈ a ++ b ++ c ++ d ++ e, isHexDigit ch = true)

lemma isHexDigit_ne_dash {c : Char} (h : isHexDigit c = true) : (c == '-') = false := by
  by_contra hne
  have : c = '-' := by
    cases hb : c == '-'
    · exact absurd hb hne
    · exact eq_of_beq hb
  subst this
  revert h
  decide

lemma isHexDigit_isAsciiAlnum {c : Char} (h : isHexDigit c = true) :
    isAsciiAlnum c = true := by
  unfold isHexDigit hexVal at h
  unfold isAsciiAlnum
  split_ifs at h <;> simp_all <;> omega

lemma isAsciiAlnum_isUnreserved {c : Char} (h : isAsciiAlnum c = true) :
    isUnreservedComponent c = true := by
  unfold isAsciiAlnum at h
  unfold isUnreservedComponent
  simp only [Bool.or_eq_true, decide_eq_true_eq] at h ⊢
  tauto

lemma encodeURIChars_eq_self :
    ∀ l : List Char, (∀ c ∈ l, isAsciiAlnum c = true) → encodeURIChars l = l := by
  intro l
  induction l with
  | nil => intro _; rfl
  | cons c rest ih =>
      intro h
      rw [encodeURIChars, if_pos (isAsciiAlnum_isUnreserved (h c (by simp))),
        ih (fun x hx => h x (by simp [hx])), List.singleton_append]

lemma uuid_filter_dashes {u : String} (a b c d e : List Char)
    (hdata : u.data = a ++ '-' :: b ++ '-' :: c ++ '-' :: d ++ '-' :: e)
    (hhex : ∀ ch ∈ a ++ b ++ c ++ d ++ e, isHexDigit ch = true) :
    u.data.filter (fun ch => !(ch == '-')) = a ++ b ++ c ++ d ++ e := by
  have hself : ∀ l : List Char, (∀ ch ∈ l, isHexDigit ch = true) →
      l.filter (fun ch => !(ch == '-')) = l := by
    intro l hl
    refine List.filter_eq_self.mpr (fun x hx => ?_)
    simp [isHexDigit_ne_dash (hl x hx)]
  simp only [List.append_assoc, List.mem_append, or_assoc] at hhex
  rw [hdata]
  simp only [List.filter_append, List.filter_cons]
  rw [hself a (fun x hx => hhex x (by tauto)), hself b (fun x hx => hhex x (by tauto)),
    hself c (fun x hx => hhex x (by tauto)), hself d (fun x hx => hhex x (by tauto)),
    hself e (fun x hx => hhex x (by tauto))]
  simp

/-- C7: for every transaction id and canonical fresh UUID, the order id that
`createPaymentRequest` returns is `generateOrderId`, is at most 40 characters,
and consists of the first up-to-8 alphanumeric characters of the transaction
id followed by a 24-character hex slice of the UUID, truncated to 40. -/
theorem c7_order_id_shape (tx u : String) (hu : isCanonicalUuid u) :
    (generateOrderId tx u).length ≤ 40 ∧
    (∃ hex24 : List Char, hex24.length = 24 ∧ (∀ ch ∈ hex24, isHexDigit ch = true) ∧
      generateOrderId tx u =
        String.mk (((tx.data.filter isAsciiAlnum).take 8 ++ hex24).take 40)) ∧
    (∀ (md5Hex : String → String) (config : PayseraConfig)
        (options : CreatePaymentOptions),
      (createPaymentRequest md5Hex config options u).orderId =
        generateOrderId options.transactionId u) := by
  obtain ⟨a, b, c, d, e, hdata, ha, hb, hc, hd, he, hhex⟩ := hu
  have hfil := uuid_filter_dashes a b c d e hdata hhex
  have hlen : (a ++ b ++ c ++ d ++ e).length = 32 := by
    simp [ha, hb, hc, hd, he]
  refine ⟨?_, ⟨(a ++ b ++ c ++ d ++ e).take 24, ?_, ?_, ?_⟩, fun _ _ _ => rfl⟩
  · show (((tx.data.filter isAsciiAlnum).take 8 ++
      (u.data.filter (fun ch => !(ch == '-'))).take 24).take 40).length ≤ 40
    simp
  · rw [List.length_take, hlen]
    omega
  · intro ch hch
    exact hhex ch (List.take_subset _ _ hch)
  · unfold generateOrderId
    rw [hfil]

/-- Witness for C7 at transaction id `TX-001` and a concrete canonical UUID. -/
theorem c7_order_id_shape_witness :
    (generateOrderId "TX-001" "01926e94-8f2e-7cc3-a1b2-3c4d5e6f7a8b").length ≤ 40 :=
  (c7_order_id_shape "TX-001" "01926e94-8f2e-7cc3-a1b2-3c4d5e6f7a8b"
    ⟨"01926e94".data, "8f2e".data, "7cc3".data, "a1b2".data, "3c4d5e6f7a8b".data,
      by decide, by decide, by decide, by decide, by decide, by decide, by decide⟩).1

/-- C10: the generated order id is pure ASCII alphanumeric, at most 32
characters (up to 8 transaction-id characters plus exactly 24 UUID hex
characters), so the 40-character truncation removes nothing and
percent-encoding leaves it unchanged. -/
theorem c10_order_id_untouched_by_encoding (tx u : String) (hu : isCanonicalUuid u) :
    (∀ ch ∈ (generateOrderId tx u).data, isAsciiAlnum ch = true) ∧
    (generateOrderId tx u).length ≤ 32 ∧
    generateOrderId tx u =
      String.mk ((tx.data.filter isAsciiAlnum).take 8 ++
        (u.data.filter (fun ch => !(ch == '-'))).take 24) ∧
    jsEncodeURIComponent (generateOrderId tx u) = generateOrderId tx u := by
  obtain ⟨a, b, c, d, e, hdata, ha, hb, hc, hd, he, hhex⟩ := hu
  have hfil := uuid_filter_dashes a b c d e hdata hhex
  have hlen : (a ++ b ++ c ++ d ++ e).length = 32 := by
    simp [ha, hb, hc, hd, he]
  have hshort : ((tx.data.filter isAsciiAlnum).take 8 ++
      (u.data.filter (fun ch => !(ch == '-'))).take 24).length ≤ 32 := by
    rw [List.length_append, List.length_take, List.length_take, hfil, hlen]
    have := min_le_left 8 (tx.data.filter isAsciiAlnum).length
    omega
  have htake : ((tx.data.filter isAsciiAlnum).take 8 ++
      (u.data.filter (fun ch => !(ch == '-'))).take 24).take 40 =
      (tx.data.filter isAsciiAlnum).take 8 ++
      (u.data.filter (fun ch => !(ch == '-'))).take 24 :=
    List.take_of_length_le (by omega)
  have halnum : ∀ ch ∈ (generateOrderId tx u).data, isAsciiAlnum ch = true := by
    intro ch hch
    show isAsciiAlnum ch = true
    have hch2 : ch ∈ (tx.data.filter isAsciiAlnum).take 8 ++
        (u.data.filter (fun c2 => !(c2 == '-'))).take 24 := by
      have : (generateOrderId tx u).data = ((tx.data.filter isAsciiAlnum).take 8 ++
          (u.data.filter (fun c2 => !(c2 == '-'))).take 24).take 40 := rfl
      rw [this, htake] at hch
      exact hch
    rcases List.mem_append.mp hch2 with hmem | hmem
    · exact (List.mem_filter.mp (List.take_subset _ _ hmem)).2
    · refine isHexDigit_isAsciiAlnum (hhex ch ?_)
      have := List.take_subset 24 _ hmem
      rw [hfil] at this
      exact this
  refine ⟨halnum, ?_, ?_, ?_⟩
  · show (((tx.data.filter isAsciiAlnum).take 8 ++
      (u.data.filter (fun ch => !(ch == '-'))).take 24).take 40).length ≤ 32
    rw [htake]
    exact hshort
  · show String.mk (((tx.data.filter isAsciiAlnum).take 8 ++
      (u.data.filter (fun ch => !(ch == '-'))).take 24).take 40) = _
    rw [htake]
  · show String.mk (encodeURIChars (generateOrderId tx u).data) = generateOrderId tx u
    rw [encodeURIChars_eq_self _ halnum]

/-- Witness for C10 at the same concrete transaction id and UUID. -/
theorem c10_order_id_untouched_by_encoding_witness :
    jsEncodeURIComponent (generateOrderId "TX-001" "01926e94-8f2e-7cc3-a1b2-3c4d5e6f7a8b") =
      generateOrderId "TX-001" "01926e94-8f2e-7cc3-a1b2-3c4d5e6f7a8b" :=
  (c10_order_id_untouched_by_encoding "TX-001" "01926e94-8f2e-7cc3-a1b2-3c4d5e6f7a8b"
    ⟨"01926e94".data, "8f2e".data, "7cc3".data, "a1b2".data, "3c4d5e6f7a8b".data,
      by decide, by decide, by decide, by decide, by decide, by decide, by decide⟩).2.2.2

/-- C6: `encodeParams` emits `k1=v1&k2=v2&...` in entry order with
percent-encoding on keys and values; entries whose value is `undefined`,
`null` or the empty string contribute nothing (dropping them leaves the
output unchanged), and a request built with an unset optional field never
contains that field's key among its entries. -/
theorem c6_encodeParams_omission :
    (∀ params : List (String × Option String),
      encodeParams params = encodeParams (params.filter (fun p => keepParam p.2))) ∧
    (∀ params : List (String × Option String),
      (∀ p ∈ params, keepParam p.2 = true) →
      encodeParams params = joinAmp (params.map
        (fun p => jsEncodeURIComponent p.1 ++ "=" ++ jsEncodeURIComponent (p.2.getD "")))) ∧
    (∀ (config : PayseraConfig) (options : CreatePaymentOptions) (orderId : String),
      (truthy options.customerEmail = false →
        "p_email" ∉ (buildRequestParams config options orderId).map Prod.fst) ∧
      (truthy options.customerFirstName = false →
        "p_firstname" ∉ (buildRequestParams config options orderId).map Prod.fst) ∧
      (truthy options.customerLastName = false →
        "p_lastname" ∉ (buildRequestParams config options orderId).map Prod.fst) ∧
      (truthy options.paymentDescription = false →
        "paytext" ∉ (buildRequestParams config options orderId).map Prod.fst) ∧
      (truthy options.language = false →
        "lang" ∉ (buildRequestParams config options orderId).map Prod.fst)) := by
  refine ⟨?_, ?_, ?_⟩
  · intro params
    unfold encodeParams
    rw [List.filter_filter]
    simp
  · intro params h
    unfold encodeParams
    rw [List.filter_eq_self.mpr h]
  · intro config options orderId
    refine ⟨?_, ?_, ?_, ?_, ?_⟩ <;>
      · intro h
        unfold buildRequestParams
        rw [h]
        split_ifs <;> simp_all

/-- Witness for C6: a dropped entry changes nothing, and an unset
`customerEmail` leaves no `p_email` key. -/
theorem c6_encodeParams_omission_witness :
    encodeParams [("a", some "b"), ("p_email", none), ("x", some "")] =
      encodeParams [("a", some "b")] ∧
    "p_email" ∉ (buildRequestParams ⟨"1", "pw", true⟩
      ⟨"tx", 10, "EUR", ⟨"au", "cu", "cbu"⟩, none, none, none, none, none⟩
      "oid").map Prod.fst := by
  constructor
  · have h := c6_encodeParams_omission.1 [("a", some "b"), ("p_email", none), ("x", some "")]
    rw [h]
    rfl
  · exact (c6_encodeParams_omission.2.2 ⟨"1", "pw", true⟩
      ⟨"tx", 10, "EUR", ⟨"au", "cu", "cbu"⟩, none, none, none, none, none⟩ "oid").1 rfl

/-- C3: `parseCallbackData` fails naming the first missing required field in
the order `projectid, orderid, amount, currency, status, requestid`; with all
six present it fails with "Invalid amount value" (resp. "Invalid status
value") when the amount (resp. status) string does not `parseInt` as a
base-10 integer, and otherwise succeeds with the parsed integers, the
optional fields copied through, and `test` mapped `"1" ↦ 1`, `"0" ↦ 0`,
anything else `↦ undefined`. -/
theorem c3_parseCallbackData_validation (raw : String → Option String) :
    (∀ f, ["projectid", "orderid", "amount", "currency", "status", "requestid"].find?
        (fun g => (raw g).isNone) = some f →
      parseCallbackData raw = .error (.callbackDataError ("Missing required field: " ++ f))) ∧
    (["projectid", "orderid", "amount", "currency", "status", "requestid"].find?
        (fun g => (raw g).isNone) = none →
      ∀ a s, raw "amount" = some a → raw "status" = some s →
        (jsParseInt10 a = none →
          parseCallbackData raw = .error (.callbackDataError "Invalid amount value")) ∧
        (∀ av, jsParseInt10 a = some av → jsParseInt10 s = none →
          parseCallbackData raw = .error (.callbackDataError "Invalid status value")) ∧
        (∀ av sv, jsParseInt10 a = some av → jsParseInt10 s = some sv →
          parseCallbackData raw = .ok
            { projectid := (raw "projectid").getD ""
              orderid := (raw "orderid").getD ""
              amount := av
              currency := (raw "currency").getD ""
              status := sv
              requestid := (raw "requestid").getD ""
              paytext := raw "paytext"
              name := raw "name"
              surename := raw "surename"
              payment := raw "payment"
              country := raw "country"
              test := if raw "test" = some "1" then some 1
                      else if raw "test" = some "0" then some 0 else none })) := by
  constructor
  · intro f hf
    unfold parseCallbackData requiredFields
    rw [hf]
  · intro hnone a s ha hs
    refine ⟨?_, ?_, ?_⟩
    · intro hpa
      unfold parseCallbackData requiredFields
      rw [hnone, ha]
      simp only [Option.getD_some]
      rw [hpa]
    · intro av hpa hps
      unfold parseCallbackData requiredFields
      rw [hnone, ha, hs]
      simp only [Option.getD_some]
      rw [hpa, hps]
    · intro av sv hpa hps
      unfold parseCallbackData requiredFields
      rw [hnone, ha, hs]
      simp only [Option.getD_some]
      rw [hpa, hps]

/-- Witness for C3: a fully populated record parses to the expected event;
a record missing `orderid` fails naming `orderid`. -/
theorem c3_parseCallbackData_validation_witness :
    parseCallbackData (fun k =>
      if k = "projectid" then some "12345" else if k = "orderid" then some "ORDER-001"
      else if k = "amount" then some "1000" else if k = "currency" then some "EUR"
      else if k = "status" then some "1" else if k = "requestid" then some "req123"
      else none) =
      .ok ⟨"12345", "ORDER-001", 1000, "EUR", 1, "req123",
        none, none, none, none, none, none⟩ ∧
    parseCallbackData (fun k => if k = "projectid" then some "12345" else none) =
      .error (.callbackDataError "Missing required field: orderid") := by
  constructor
  · have h := ((c3_parseCallbackData_validation (fun k =>
      if k = "projectid" then some "12345" else if k = "orderid" then some "ORDER-001"
      else if k = "amount" then some "1000" else if k = "currency" then some "EUR"
      else if k = "status" then some "1" else if k = "requestid" then some "req123"
      else none)).2 (by decide) "1000" "1" (by decide) (by decide)).2.2
      1000 1 (by decide) (by decide)
    rw [h]
    congr 1
  · exact (c3_parseCallbackData_validation
      (fun k => if k = "projectid" then some "12345" else none)).1 "orderid" (by decide)

/-- C1: `verifyAndDecodeCallback` fails with the callback-data error when
`data` or `ss1` is empty; otherwise it fails with the signature error exactly
when the recomputed signature differs from `ss1` case-insensitively; on every
error path before the signature check succeeds the result is independent of
the decode stage, so no error path inspects decoded payload content; and
`processCallback` is exactly this function at the client's password. -/
theorem c1_verify_before_decode (md5Hex : String → String) (raw : PayseraRawCallback)
    (password : String) :
    ((raw.data = "" ∨ raw.ss1 = "") →
      verifyAndDecodeCallback md5Hex raw password =
        .error (.callbackDataError "Missing data or signature in callback")) ∧
    (raw.data ≠ "" → raw.ss1 ≠ "" →
      (verifyAndDecodeCallback md5Hex raw password = .error .signatureError ↔
        jsToLowerCase (generateSignature md5Hex raw.data password) ≠
          jsToLowerCase raw.ss1)) ∧
    (∀ decode₁ decode₂ : String → Except PayseraError (String → Option String),
      (raw.data = "" ∨ raw.ss1 = "" ∨
        verifySignature md5Hex raw.data raw.ss1 password = false) →
      verifyAndDecodeCallbackWith md5Hex decode₁ raw password =
        verifyAndDecodeCallbackWith md5Hex decode₂ raw password) ∧
    (∀ config : PayseraConfig,
      processCallback md5Hex config raw =
        verifyAndDecodeCallback md5Hex raw config.password) := by
  refine ⟨?_, ?_, ?_, fun _ => rfl⟩
  · intro h
    unfold verifyAndDecodeCallback verifyAndDecodeCallbackWith
    rw [if_pos h]
  · intro h1 h2
    unfold verifyAndDecodeCallback verifyAndDecodeCallbackWith
    rw [if_neg (by simp [h1, h2])]
    by_cases hv : verifySignature md5Hex raw.data raw.ss1 password = true
    · rw [if_neg (by simp [hv])]
      have hrhs : jsToLowerCase (generateSignature md5Hex raw.data password) =
          jsToLowerCase raw.ss1 := by
        unfold verifySignature at hv
        exact eq_of_beq hv
      constructor
      · intro hl
        rcases hd : decodeCallbackData raw.data with e | d
        · rw [hd] at hl
          have he := decodeCallbackData_error _ _ hd
          simp at hl
          simp [he] at hl
        · rw [hd] at hl
          obtain ⟨m, hm⟩ := parseCallbackData_error _ _ hl
          simp at hm
      · intro hr
        exact absurd hrhs hr
    · rw [if_pos (by simpa using hv)]
      have hrhs : jsToLowerCase (generateSignature md5Hex raw.data password) ≠
          jsToLowerCase raw.ss1 := by
        unfold verifySignature at hv
        intro he
        exact hv (beq_of_eq he)
      simp [hrhs]
  · intro d1 d2 h
    unfold verifyAndDecodeCallbackWith
    by_cases he : raw.data = "" ∨ raw.ss1 = ""
    · rw [if_pos he, if_pos he]
    · have hsig : verifySignature md5Hex raw.data raw.ss1 password = false := by
        tauto
      rw [if_neg he, if_neg he, if_pos hsig, if_pos hsig]

/-- Witness for C1: an empty payload yields the callback-data error, and a
mismatched signature (under a concrete digest) yields the signature error. -/
theorem c1_verify_before_decode_witness :
    verifyAndDecodeCallback (fun s => s) ⟨"", "sig", none⟩ "pw" =
      .error (.callbackDataError "Missing data or signature in callback") ∧
    verifyAndDecodeCallback (fun _ => "aa") ⟨"x", "bb", none⟩ "pw" =
      .error .signatureError :=
  ⟨(c1_verify_before_decode (fun s => s) ⟨"", "sig", none⟩ "pw").1 (Or.inl rfl),
   ((c1_verify_before_decode (fun _ => "aa") ⟨"x", "bb", none⟩ "pw").2.1
     (by decide) (by decide)).mpr (by decide)⟩

/-- `Array.prototype.join` with a single-character separator, at the
character-list level (the inverse direction of `splitOnChar`). -/
def joinSepChars (sep : Char) : List (List Char) → List Char
  | [] => []
  | [x] => x
  | x :: rest => x ++ sep :: joinSepChars sep rest

lemma splitOnChar_no_sep (sep : Char) :
    ∀ l : List Char, (∀ c ∈ l, c ≠ sep) → splitOnChar sep l = [l] := by
  intro l
  induction l with
  | nil => intro _; rfl
  | cons c rest ih =>
      intro h
      rw [splitOnChar, if_neg (h c (by simp)), ih (fun x hx => h x (by simp [hx]))]
      rfl

lemma splitOnChar_append (sep : Char) :
    ∀ x y : List Char, (∀ c ∈ x, c ≠ sep) →
      splitOnChar sep (x ++ sep :: y) = x :: splitOnChar sep y := by
  intro x
  induction x with
  | nil =>
      intro y _
      rw [List.nil_append, splitOnChar]
      simp
  | cons c x' ih =>
      intro y h
      rw [List.cons_append, splitOnChar, if_neg (h c (by simp)),
        ih y (fun a ha => h a (by simp [ha]))]
      rfl

lemma splitOnChar_joinSep (sep : Char) :
    ∀ ls : List (List Char), ls ≠ [] → (∀ l ∈ ls, ∀ c ∈ l, c ≠ sep) →
      splitOnChar sep (joinSepChars sep ls) = ls := by
  intro ls
  induction ls with
  | nil => intro h; exact absurd rfl h
  | cons x rest ih =>
      intro _ h
      cases rest with
      | nil => exact splitOnChar_no_sep sep x (h x (by simp))
      | cons y rest2 =>
          rw [show joinSepChars sep (x :: y :: rest2) =
            x ++ sep :: joinSepChars sep (y :: rest2) from rfl]
          rw [splitOnChar_append sep x _ (h x (by simp)),
            ih (by simp) (fun l hl => h l (by simp at hl ⊢; tauto))]

lemma pctDecodeBytes_no_pct :
    ∀ l : List Char, (∀ c ∈ l, c ≠ '%') →
      pctDecodeBytes l = some (utf8EncodeList l) := by
  intro l
  induction l with
  | nil => intro _; simp [pctDecodeBytes, utf8EncodeList]
  | cons c rest ih =>
      intro h
      have hstep : pctStep c rest = some (utf8EncodeChar c, rest) := by
        unfold pctStep
        rw [if_neg (h c (by simp))]
      rw [pctDecodeBytes, hstep]
      simp [ih (fun x hx => h x (by simp [hx])), utf8EncodeList]

lemma jsDecodeURIComponent_no_pct (l : List Char) (h : ∀ c ∈ l, c ≠ '%') :
    jsDecodeURIComponent (String.mk l) = some (String.mk l) := by
  show (pctDecodeBytes l).bind (fun bs => (utf8DecodeStrict bs).map String.mk) = _
  rw [pctDecodeBytes_no_pct l h]
  show (utf8DecodeStrict (utf8EncodeList l)).map String.mk = _
  rw [utf8DecodeStrict_encodeList]
  rfl

lemma hexDigitUpper_ne_seps : ∀ n < 16,
    hexDigitUpper n ≠ '&' ∧ hexDigitUpper n ≠ '=' := by decide

lemma pctEncodeBytes_mem :
    ∀ bs : List Nat, (∀ b ∈ bs, b < 256) →
      ∀ c ∈ pctEncodeBytes bs, c = '%' ∨ ∃ n, n < 16 ∧ c = hexDigitUpper n := by
  intro bs
  induction bs with
  | nil => simp [pctEncodeBytes]
  | cons b rest ih =>
      intro h c hc
      have hb : b < 256 := h b (by simp)
      rw [pctEncodeBytes] at hc
      simp only [List.mem_cons] at hc
      rcases hc with hc | hc | hc | hc
      · exact Or.inl hc
      · exact Or.inr ⟨b / 16, by omega, hc⟩
      · exact Or.inr ⟨b % 16, by omega, hc⟩
      · exact ih (fun x hx => h x (by simp [hx])) c hc

lemma encodeURIChars_ne_seps :
    ∀ l : List Char, ∀ c ∈ encodeURIChars l, c ≠ '&' ∧ c ≠ '=' := by
  intro l
  induction l with
  | nil => simp [encodeURIChars]
  | cons a rest ih =>
      intro c hc
      rw [encodeURIChars] at hc
      rcases List.mem_append.mp hc with hc | hc
      · split_ifs at hc with hu
        · simp at hc
          subst hc
          have := isUnreservedComponent_ne c hu
          tauto
        · rcases pctEncodeBytes_mem _ (utf8EncodeChar_lt a) c hc with hc2 | ⟨n, hn, hc2⟩
          · subst hc2
            constructor <;> decide
          · subst hc2
            exact hexDigitUpper_ne_seps n hn
      · exact ih c hc

lemma utf8EncodeChar_ne_nil (c : Char) : utf8EncodeChar c ≠ [] := by
  unfold utf8EncodeChar
  split_ifs <;> simp

lemma encodeURIChars_eq_nil_iff :
    ∀ l : List Char, encodeURIChars l = [] ↔ l = [] := by
  intro l
  cases l with
  | nil => simp [encodeURIChars]
  | cons c rest =>
      rw [encodeURIChars]
      constructor
      · intro h
        exfalso
        rcases List.append_eq_nil.mp h with ⟨h1, _⟩
        split_ifs at h1
        rcases he : utf8EncodeChar c with _ | ⟨b, bs⟩
        · exact absurd he (utf8EncodeChar_ne_nil c)
        · rw [he] at h1
          rw [pctEncodeBytes] at h1
          exact List.cons_ne_nil _ _ h1
      · intro h
        exact (List.cons_ne_nil c rest h).elim

lemma qsStep_pair (k v : List Char) (hk : k ≠ [])
    (hks : ∀ c ∈ k, c ≠ '=' ∧ c ≠ '%') (hvs : ∀ c ∈ v, c ≠ '=' ∧ c ≠ '%') :
    qsStep (k ++ '=' :: v) = some (some (String.mk k, String.mk v)) := by
  have hsplit : splitOnChar '=' (k ++ '=' :: v) = [k, v] := by
    rw [splitOnChar_append '=' k v (fun c hc => (hks c hc).1),
      splitOnChar_no_sep '=' v (fun c hc => (hvs c hc).1)]
  unfold qsStep
  rw [hsplit]
  by_cases hv0 : v = []
  · subst hv0
    simp only [List.headD_cons, List.get?_cons_succ, List.get?_cons_zero,
      if_neg hk, jsDecodeURIComponent_no_pct k (fun c hc => (hks c hc).2)]
    simp
  · simp only [List.headD_cons, List.get?_cons_succ, List.get?_cons_zero,
      if_neg hk, if_neg hv0,
      jsDecodeURIComponent_no_pct k (fun c hc => (hks c hc).2),
      jsDecodeURIComponent_no_pct v (fun c hc => (hvs c hc).2)]

lemma qsStep_key_only (k : List Char) (hk : k ≠ [])
    (hks : ∀ c ∈ k, c ≠ '=' ∧ c ≠ '%') :
    qsStep k = some (some (String.mk k, "")) := by
  have hsplit : splitOnChar '=' k = [k] :=
    splitOnChar_no_sep '=' k (fun c hc => (hks c hc).1)
  unfold qsStep
  rw [hsplit]
  simp only [List.headD_cons, List.get?_cons_succ, List.get?_nil,
    if_neg hk, jsDecodeURIComponent_no_pct k (fun c hc => (hks c hc).2)]

lemma qsStep_two_eq (k v1 v2 : List Char) (hk : k ≠ [])
    (hks : ∀ c ∈ k, c ≠ '=' ∧ c ≠ '%') (hv1 : ∀ c ∈ v1, c ≠ '=' ∧ c ≠ '%')
    (hv2 : ∀ c ∈ v2, c ≠ '=' ∧ c ≠ '%') :
    qsStep (k ++ '=' :: (v1 ++ '=' :: v2)) = some (some (String.mk k, String.mk v1)) := by
  have hsplit : splitOnChar '=' (k ++ '=' :: (v1 ++ '=' :: v2)) = [k, v1, v2] := by
    rw [splitOnChar_append '=' k _ (fun c hc => (hks c hc).1),
      splitOnChar_append '=' v1 v2 (fun c hc => (hv1 c hc).1),
      splitOnChar_no_sep '=' v2 (fun c hc => (hv2 c hc).1)]
  unfold qsStep
  rw [hsplit]
  by_cases hv0 : v1 = []
  · subst hv0
    simp only [List.headD_cons, List.get?_cons_succ, List.get?_cons_zero,
      if_neg hk, jsDecodeURIComponent_no_pct k (fun c hc => (hks c hc).2)]
    simp
  · simp only [List.headD_cons, List.get?_cons_succ, List.get?_cons_zero,
      if_neg hk, if_neg hv0,
      jsDecodeURIComponent_no_pct k (fun c hc => (hks c hc).2),
      jsDecodeURIComponent_no_pct v1 (fun c hc => (hv1 c hc).2)]

lemma qsStep_encoded (k v : String) (hk : k ≠ "") :
    qsStep (encodeURIChars k.data ++ '=' :: encodeURIChars v.data) =
      some (some (k, v)) := by
  have hkne : encodeURIChars k.data ≠ [] := by
    intro h0
    apply hk
    have := (encodeURIChars_eq_nil_iff k.data).mp h0
    cases k
    simp_all
  have hsplit : splitOnChar '=' (encodeURIChars k.data ++ '=' :: encodeURIChars v.data) =
      [encodeURIChars k.data, encodeURIChars v.data] := by
    rw [splitOnChar_append '=' _ _ (fun c hc => (encodeURIChars_ne_seps _ c hc).2),
      splitOnChar_no_sep '=' _ (fun c hc => (encodeURIChars_ne_seps _ c hc).2)]
  have hdk : jsDecodeURIComponent (String.mk (encodeURIChars k.data)) = some k :=
    jsDecode_jsEncodeURIComponent k
  unfold qsStep
  rw [hsplit]
  by_cases hv0 : encodeURIChars v.data = []
  · have hv : v = "" := by
      have := (encodeURIChars_eq_nil_iff v.data).mp hv0
      cases v
      simp_all
    rw [hv0]
    simp only [List.headD_cons, List.get?_cons_succ, List.get?_cons_zero,
      if_neg hkne, hdk]
    subst hv
    simp
  · have hdv : jsDecodeURIComponent (String.mk (encodeURIChars v.data)) = some v :=
      jsDecode_jsEncodeURIComponent v
    simp only [List.headD_cons, List.get?_cons_succ, List.get?_cons_zero,
      if_neg hkne, if_neg hv0, hdk, hdv]

lemma parseQSPairs_steps :
    ∀ (ps : List (String × String)) (f : String × String → List Char)
      (params : String → Option String),
      (∀ p ∈ ps, qsStep (f p) = some (some p)) →
      ∃ m, parseQSPairs (ps.map f) params = .ok m ∧
        ∀ k, m k = (match ps.reverse.find? (fun p => p.1 == k) with
                    | some p => some p.2
                    | none => params k) := by
  intro ps
  induction ps with
  | nil =>
      intro f params _
      exact ⟨params, rfl, fun k => rfl⟩
  | cons p ps ih =>
      intro f params h
      obtain ⟨m, hm, hk⟩ := ih f (fun k2 => if k2 = p.1 then some p.2 else params k2)
        (fun q hq => h q (by simp [hq]))
      refine ⟨m, ?_, ?_⟩
      · rw [List.map_cons, parseQSPairs, h p (by simp)]
        exact hm
      · intro k
        rw [hk k, List.reverse_cons, List.find?_append]
        cases hf : ps.reverse.find? (fun q => q.1 == k) with
        | some q => rfl
        | none =>
            show _ = (match (none : Option (String × String)).or
              (List.find? (fun q => q.1 == k) [p]) with
              | some q => some q.2
              | none => params k)
            rw [Option.none_or]
            by_cases hpk : p.1 = k
            · have hone : List.find? (fun q => q.1 == k) [p] = some p := by
                rw [List.find?_cons, show (p.1 == k) = true from beq_iff_eq.mpr hpk]
              rw [hone, if_pos hpk.symm]
            · have hone : List.find? (fun q => q.1 == k) [p] = none := by
                rw [List.find?_cons, show (p.1 == k) = false from
                  beq_eq_false_iff_ne.mpr hpk]
                rfl
              rw [hone, if_neg (fun he => hpk he.symm)]

lemma stringMk_data (s : String) : String.mk s.data = s := rfl

lemma parseQS_single (chars : List Char) (key val : String)
    (hne : ∀ c ∈ chars, c ≠ '&')
    (hstep : qsStep chars = some (some (key, val))) :
    ∃ m, parseQSPairs (splitOnChar '&' chars) (fun _ => none) = .ok m ∧
      m key = some val := by
  rw [splitOnChar_no_sep '&' chars hne]
  obtain ⟨m, hm, hk⟩ := parseQSPairs_steps [(key, val)] (fun _ => chars) (fun _ => none)
    (fun p hp => by
      simp at hp
      subst hp
      exact hstep)
  refine ⟨m, hm, ?_⟩
  rw [hk key]
  simp [List.find?_cons]

/-- C4 (amended): `decodeCallbackData` base64url-decodes the payload then
parses the query string; fields are split on `&`; each pair is split on `=`
and only the first two components are kept, so the key is the part before
the first `=` and the value the part between the first and second `=`
(anything after a second `=` is dropped); key and value are
percent-decoded; a key with no `=` maps to the empty string; and when a key
occurs more than once the last occurrence wins. -/
theorem c4_decodeCallbackData_query_parsing :
    (∀ qs : String, decodeCallbackData (toUrlSafeBase64 qs) = parseQueryString qs) ∧
    (∀ ps : List (String × String), ps ≠ [] →
      (∀ p ∈ ps, p.1 ≠ "" ∧ (∀ c ∈ p.1.data, c ≠ '&' ∧ c ≠ '=' ∧ c ≠ '%') ∧
        (∀ c ∈ p.2.data, c ≠ '&' ∧ c ≠ '=' ∧ c ≠ '%')) →
      ∃ m, parseQueryString (String.mk (joinSepChars '&'
          (ps.map (fun p => p.1.data ++ '=' :: p.2.data)))) = .ok m ∧
        ∀ k, m k = (match ps.reverse.find? (fun p => p.1 == k) with
                    | some p => some p.2
                    | none => none)) ∧
    (∀ key : String, key ≠ "" →
      (∀ c ∈ key.data, c ≠ '&' ∧ c ≠ '=' ∧ c ≠ '%') →
      ∃ m, parseQueryString key = .ok m ∧ m key = some "") ∧
    (∀ key v1 v2 : String, key ≠ "" →
      (∀ c ∈ key.data, c ≠ '&' ∧ c ≠ '=' ∧ c ≠ '%') →
      (∀ c ∈ v1.data, c ≠ '&' ∧ c ≠ '=' ∧ c ≠ '%') →
      (∀ c ∈ v2.data, c ≠ '&' ∧ c ≠ '=' ∧ c ≠ '%') →
      ∃ m, parseQueryString (key ++ "=" ++ v1 ++ "=" ++ v2) = .ok m ∧
        m key = some v1) ∧
    (∀ key v : String, key ≠ "" →
      ∃ m, parseQueryString (jsEncodeURIComponent key ++ "=" ++
        jsEncodeURIComponent v) = .ok m ∧ m key = some v) := by
  have hdata_ne : ∀ s : String, s ≠ "" → s.data ≠ [] := by
    intro s hs h0
    apply hs
    cases s
    simp_all
  refine ⟨?_, ?_, ?_, ?_, ?_⟩
  · intro qs
    unfold decodeCallbackData
    rw [urlSafeBase64_roundtrip]
  · intro ps hne hps
    have hsplit : splitOnChar '&'
        (joinSepChars '&' (ps.map (fun p => p.1.data ++ '=' :: p.2.data))) =
        ps.map (fun p => p.1.data ++ '=' :: p.2.data) := by
      refine splitOnChar_joinSep '&' _ (by simpa using hne) ?_
      intro l hl c hc
      obtain ⟨p, hp, rfl⟩ := List.mem_map.mp hl
      rcases List.mem_append.mp hc with hc | hc
      · exact ((hps p hp).2.1 c hc).1
      · rcases List.mem_cons.mp hc with rfl | hc
        · decide
        · exact ((hps p hp).2.2 c hc).1
    have hstep : ∀ p ∈ ps, qsStep (p.1.data ++ '=' :: p.2.data) = some (some p) := by
      intro p hp
      have h := qsStep_pair p.1.data p.2.data (hdata_ne p.1 (hps p hp).1)
        (fun c hc => ⟨((hps p hp).2.1 c hc).2.1, ((hps p hp).2.1 c hc).2.2⟩)
        (fun c hc => ⟨((hps p hp).2.2 c hc).2.1, ((hps p hp).2.2 c hc).2.2⟩)
      rw [stringMk_data, stringMk_data] at h
      exact h
    obtain ⟨m, hm, hk⟩ := parseQSPairs_steps ps _ (fun _ => none) hstep
    refine ⟨m, ?_, fun k => hk k⟩
    show parseQSPairs (splitOnChar '&'
      (joinSepChars '&' (ps.map (fun p => p.1.data ++ '=' :: p.2.data)))) _ = _
    rw [hsplit]
    exact hm
  · intro key hne hk
    have hstep : qsStep key.data = some (some (key, "")) := by
      have h := qsStep_key_only key.data (hdata_ne key hne)
        (fun c hc => ⟨(hk c hc).2.1, (hk c hc).2.2⟩)
      rw [stringMk_data] at h
      exact h
    exact parseQS_single key.data key "" (fun c hc => (hk c hc).1) hstep
  · intro key v1 v2 hne hk h1 h2
    have hdata : (key ++ "=" ++ v1 ++ "=" ++ v2).data =
        key.data ++ '=' :: (v1.data ++ '=' :: v2.data) := by
      simp [String.data_append]
    have hstep : qsStep (key.data ++ '=' :: (v1.data ++ '=' :: v2.data)) =
        some (some (key, v1)) := by
      have h := qsStep_two_eq key.data v1.data v2.data (hdata_ne key hne)
        (fun c hc => ⟨(hk c hc).2.1, (hk c hc).2.2⟩)
        (fun c hc => ⟨(h1 c hc).2.1, (h1 c hc).2.2⟩)
        (fun c hc => ⟨(h2 c hc).2.1, (h2 c hc).2.2⟩)
      rw [stringMk_data, stringMk_data] at h
      exact h
    have hamp : ∀ c ∈ key.data ++ '=' :: (v1.data ++ '=' :: v2.data), c ≠ '&' := by
      intro c hc
      rcases List.mem_append.mp hc with hc | hc
      · exact (hk c hc).1
      · rcases List.mem_cons.mp hc with rfl | hc
        · decide
        · rcases List.mem_append.mp hc with hc | hc
          · exact (h1 c hc).1
          · rcases List.mem_cons.mp hc with rfl | hc
            · decide
            · exact (h2 c hc).1
    obtain ⟨m, hm, hmk⟩ := parseQS_single _ key v1 hamp hstep
    refine ⟨m, ?_, hmk⟩
    show parseQSPairs (splitOnChar '&' (key ++ "=" ++ v1 ++ "=" ++ v2).data) _ = _
    rw [hdata]
    exact hm
  · intro key v hne
    have hdata : (jsEncodeURIComponent key ++ "=" ++ jsEncodeURIComponent v).data =
        encodeURIChars key.data ++ '=' :: encodeURIChars v.data := by
      simp [String.data_append, jsEncodeURIComponent]
    have hamp : ∀ c ∈ encodeURIChars key.data ++ '=' :: encodeURIChars v.data,
        c ≠ '&' := by
      intro c hc
      rcases List.mem_append.mp hc with hc | hc
      · exact (encodeURIChars_ne_seps _ c hc).1
      · rcases List.mem_cons.mp hc with rfl | hc
        · decide
        · exact (encodeURIChars_ne_seps _ c hc).1
    obtain ⟨m, hm, hmk⟩ := parseQS_single _ key v hamp (qsStep_encoded key v hne)
    refine ⟨m, ?_, hmk⟩
    show parseQSPairs (splitOnChar '&'
      (jsEncodeURIComponent key ++ "=" ++ jsEncodeURIComponent v).data) _ = _
    rw [hdata]
    exact hm

/-- Counterexample for C4 as stated: the payload `YT1iPWM=` decodes to the
query string `a=b=c`, and the code maps `a` to `b` — the remainder `=c`
after the second `=` is dropped, not kept as the claim asserts. -/
theorem c4_counterexample_split_drops_remainder :
    (decodeCallbackData "YT1iPWM=").map (fun m => m "a") = .ok (some "b") ∧
    some ("b" : String) ≠ some ("b=c" : String) := by
  constructor
  · have he : ("YT1iPWM=" : String) = toUrlSafeBase64 "a=b=c" := by decide
    rw [he]
    have h1 : decodeCallbackData (toUrlSafeBase64 "a=b=c") = parseQueryString "a=b=c" := by
      unfold decodeCallbackData
      rw [urlSafeBase64_roundtrip]
    rw [h1]
    have hdata : ("a=b=c" : String).data =
        ("a" : String).data ++ '=' :: (("b" : String).data ++ '=' :: ("c" : String).data) := by
      decide
    have hstep : qsStep (("a" : String).data ++ '=' ::
        (("b" : String).data ++ '=' :: ("c" : String).data)) =
        some (some ("a", "b")) := by
      have h := qsStep_two_eq ("a" : String).data ("b" : String).data ("c" : String).data
        (by decide) (by decide) (by decide) (by decide)
      rw [stringMk_data, stringMk_data] at h
      exact h
    obtain ⟨m, hm, hmk⟩ := parseQS_single _ "a" "b" (by decide) hstep
    have hm2 : parseQueryString "a=b=c" = .ok m := by
      show parseQSPairs (splitOnChar '&' ("a=b=c" : String).data) _ = _
      rw [hdata]
      exact hm
    rw [hm2]
    show Except.ok (m "a") = Except.ok (some "b")
    rw [hmk]
  · decide

/-- Witness for the amended C4: a percent-encoded pair with a space in the
key and an ampersand in the value round-trips through `parseQueryString`. -/
theorem c4_decodeCallbackData_query_parsing_witness :
    ∃ m, parseQueryString (jsEncodeURIComponent "k 1" ++ "=" ++
      jsEncodeURIComponent "v&2") = .ok m ∧ m "k 1" = some "v&2" :=
  c4_decodeCallbackData_query_parsing.2.2.2.2 "k 1" "v&2" (by decide)

end Paysera
